import Mathlib

/-!
Shallow embedding of `src/transformerlab/question_answering.py`.

The module has three parts that the claims touch:
* `prepare_train_features` — training-mode windowing with start/end labels;
* `prepare_validation_features` — validation-mode windowing that records the
  owning example id and nulls out non-context offset-mapping entries;
* `QuestionAnsweringTrainer._postprocess_qa_predictions` — the span decoder.

Model logits (Python floats) are embedded as elements of an arbitrary
`LinearOrderedAddCommGroup` (the decoder only adds, subtracts and compares
them); concrete witnesses instantiate the group at `ℤ`.  The softmax step
(lines 311-316), whose output never influences the returned answer text, is
embedded separately over `ℝ`.  Character offsets, token indices and strings
are embedded as `Nat` and `List Char`; Python's fallible operations (the two
`assert`s, the `KeyError` during grouping, the possibly out-of-bounds
`while predictions[i]["text"] == ""` loop, the `min_null_prediction is None`
case) are embedded as an `Except` with a dedicated error constructor each.
-/

/-- Error outcomes of the decoder, one constructor per distinct Python
failure: the two shape `assert`s, the grouping `KeyError`, subscripting a
`None` null prediction, the empty-text skip loop running out of bounds, and
indexing `predictions[0]` on an empty list. -/
inductive DErr where
  | shape
  | keyError
  | nullMissing
  | loopOOB
  | emptyPreds
deriving DecidableEq

/-- One evaluation example: `id` and raw `context` text (as characters). -/
structure QAExample where
  id : String
  context : List Char

/-- One tokenized window ("feature") as consumed by the decoder: owning
example id, per-token offset mapping (`none` marks non-context tokens), and
the optional per-token max-context table (`features[...].get("token_is_max_context", None)`). -/
structure Feature where
  example_id : String
  offset_mapping : List (Option (Nat × Nat))
  token_is_max_context : Option (Nat → Bool)

instance : Inhabited Feature := ⟨⟨"", [], none⟩⟩

/-- A preliminary candidate as built in the decoder's inner loop:
character offsets, `score`, `start_logit`, `end_logit`. -/
structure Prelim (α : Type) where
  offsets : Nat × Nat
  score : α
  start_logit : α
  end_logit : α

/-- A candidate after text resolution (`pred["text"] = context[o0:o1]`). -/
structure Cand (α : Type) where
  text : List Char
  score : α
  start_logit : α
  end_logit : α

/-- Python string slicing `s[a:b]` for non-negative bounds. -/
def pySlice (s : List Char) (a b : Nat) : List Char :=
  (s.drop a).take (b - a)

section Decoder

variable {α : Type} [LinearOrderedAddCommGroup α]

/-- Insert index `i` into a list of indices kept sorted by logit value
descending; on equal values the larger index comes first, matching the
reversed stable ascending argsort `np.argsort(x)[-1:-n-1:-1]`. -/
def insertIdxDesc (v : List α) (i : Nat) : List Nat → List Nat
  | [] => [i]
  | j :: rest =>
    if v.getD i 0 > v.getD j 0 ∨ (v.getD i 0 = v.getD j 0 ∧ j < i) then i :: j :: rest
    else j :: insertIdxDesc v i rest

/-- Embedding of `np.argsort(v)[-1 : -n - 1 : -1].tolist()`: the indices of
`v` ordered by value descending, truncated to the first `n`. -/
def topIndices (n : Nat) (v : List α) : List Nat :=
  ((List.range v.length).foldr (insertIdxDesc v) []).take n

/-- Max-context rejection test: `token_is_max_context is not None and not
token_is_max_context.get(str(start_index), False)`. -/
def timcBlocks (timc : Option (Nat → Bool)) (s : Nat) : Bool :=
  match timc with
  | none => false
  | some f => !(f s)

/-- Body of the decoder's double loop over a `(start_index, end_index)` pair:
`none` when one of the rejection tests fires, otherwise the emitted
candidate. -/
def candAt (ma : Nat) (sl el : List α) (om : List (Option (Nat × Nat)))
    (timc : Option (Nat → Bool)) (s e : Nat) : Option (Prelim α) :=
  if s ≥ om.length ∨ e ≥ om.length ∨ om.getD s none = none ∨ om.getD e none = none then none
  else if e < s ∨ e - s + 1 > ma then none
  else if timcBlocks timc s then none
  else some ⟨(((om.getD s none).getD (0, 0)).1, ((om.getD e none).getD (0, 0)).2),
             sl.getD s 0 + el.getD e 0, sl.getD s 0, el.getD e 0⟩

/-- Candidate spans one window contributes: the double loop over the top
`nb` start indices and the top `nb` end indices. -/
def candidatesFor (nb ma : Nat) (sl el : List α) (om : List (Option (Nat × Nat)))
    (timc : Option (Nat → Bool)) : List (Prelim α) :=
  (topIndices nb sl).flatMap (fun s => (topIndices nb el).filterMap (candAt ma sl el om timc s))

/-- The window's null prediction: offsets `(0, 0)` and the score
`start_logits[0] + end_logits[0]`. -/
def nullPrelimFor (sl el : List α) : Prelim α :=
  ⟨(0, 0), sl.getD 0 0 + el.getD 0 0, sl.getD 0 0, el.getD 0 0⟩

/-- Fold tracking the minimum null prediction over the example's windows,
first-seen winning ties (`min_null_prediction["score"] > feature_null_score`). -/
def computeMinNull (allSL allEL : List (List α)) (featIdxs : List Nat) : Option (Prelim α) :=
  featIdxs.foldl (fun acc i =>
    let cand := nullPrelimFor (allSL.getD i []) (allEL.getD i [])
    match acc with
    | none => some cand
    | some mn => if mn.score > cand.score then some cand else some mn) none

/-- Stable insertion for the score-descending sort: among equal scores the
earlier element stays first, as Python's stable `sorted(..., reverse=True)`. -/
def insertByScore (x : Prelim α) : List (Prelim α) → List (Prelim α)
  | [] => [x]
  | y :: rest => if x.score ≥ y.score then x :: y :: rest else y :: insertByScore x rest

/-- Embedding of `sorted(prelim_predictions, key=lambda x: x["score"], reverse=True)`. -/
def sortByScoreDesc (l : List (Prelim α)) : List (Prelim α) :=
  l.foldr insertByScore []

/-- Text resolution: `pred["text"] = context[offsets[0] : offsets[1]]`. -/
def resolveTexts (context : List Char) (l : List (Prelim α)) : List (Cand α) :=
  l.map (fun p => ⟨pySlice context p.offsets.1 p.offsets.2, p.score, p.start_logit, p.end_logit⟩)

/-- The synthetic fallback candidate
`{"text": "empty", "start_logit": 0.0, "end_logit": 0.0, "score": 0.0}`. -/
def phPred : Cand α :=
  ⟨"empty".toList, 0, 0, 0⟩

/-- Guard inserting the fallback at the front when the list is empty or is a
single empty-text candidate (`len == 0 or (len == 1 and text == "")`). -/
def ensureNonEmpty (preds : List (Cand α)) : List (Cand α) :=
  match preds with
  | [] => [phPred]
  | [p] => if p.text = [] then [phPred, p] else [p]
  | _ => preds

/-- Final answer selection.  Version-2 mode walks to the first candidate with
non-empty text (`while predictions[i]["text"] == ""`; exhausting the list is
Python's `IndexError`, embedded as `.loopOOB`) and compares
`null_score - start_logit - end_logit` against the threshold; otherwise the
answer is `predictions[0]["text"]`. -/
def selectAnswer (v2 : Bool) (nullScore thr : α) (preds : List (Cand α)) :
    Except DErr (List Char) :=
  if v2 then
    match preds.find? (fun p => !p.text.isEmpty) with
    | none => .error .loopOOB
    | some p => .ok (if nullScore - p.start_logit - p.end_logit > thr then [] else p.text)
  else
    match preds with
    | [] => .error .emptyPreds
    | p :: _ => .ok p.text

/-- Decoding of one example given the indices of its windows: candidate
enumeration, null tracking, ranked top-`nb` cut with the forced null
re-insertion, text resolution, the fallback guard and final selection. -/
def decodeExample (v2 : Bool) (nb ma : Nat) (thr : α) (context : List Char)
    (allSL allEL : List (List α)) (features : List Feature) (featIdxs : List Nat) :
    Except DErr (List Char) :=
  let prelims := featIdxs.flatMap (fun i =>
    candidatesFor nb ma (allSL.getD i []) (allEL.getD i [])
      ((features.getD i default).offset_mapping) ((features.getD i default).token_is_max_context))
  if v2 then
    match computeMinNull allSL allEL featIdxs with
    | none => .error .nullMissing
    | some mn =>
      let ranked := (sortByScoreDesc (prelims ++ [mn])).take nb
      let ranked2 := if ranked.any (fun p => p.offsets == (0, 0)) then ranked else ranked ++ [mn]
      selectAnswer true mn.score thr (ensureNonEmpty (resolveTexts context ranked2))
  else
    selectAnswer false 0 thr (ensureNonEmpty (resolveTexts context ((sortByScoreDesc prelims).take nb)))

/-- Embedding of `{k: i for i, k in enumerate(examples["id"])}` applied to
one key: the index of the last occurrence of `k`, `none` when absent
(Python's `KeyError`). -/
def lastIndexOf (ids : List String) (k : String) : Option Nat :=
  (List.range ids.length).foldl (fun acc j => if ids.getD j "" = k then some j else acc) none

/-- The window indices grouped under example position `j`
(`features_per_example[example_id_to_index[feature["example_id"]]]`),
in their original order. -/
def featureIndicesFor (ids : List String) (features : List Feature) (j : Nat) : List Nat :=
  (List.range features.length).filter
    (fun i => lastIndexOf ids ((features.getD i default).example_id) == some j)

/-- Assignment `all_predictions[k] = v` on an insertion-ordered dictionary:
replace in place when the key exists, append otherwise. -/
def upsert (acc : List (String × List Char)) (k : String) (v : List Char) :
    List (String × List Char) :=
  if acc.any (fun kv => kv.1 == k) then acc.map (fun kv => if kv.1 == k then (k, v) else kv)
  else acc ++ [(k, v)]

/-- The decoder's loop over examples (position `j` mirrors `example_index`),
threading the ordered result dictionary. -/
def decodeLoop (v2 : Bool) (nb ma : Nat) (thr : α) (ids : List String)
    (allSL allEL : List (List α)) (features : List Feature) :
    List QAExample → Nat → List (String × List Char) → Except DErr (List (String × List Char))
  | [], _, acc => .ok acc
  | ex :: rest, j, acc =>
    match decodeExample v2 nb ma thr ex.context allSL allEL features
        (featureIndicesFor ids features j) with
    | .error e => .error e
    | .ok a => decodeLoop v2 nb ma thr ids allSL allEL features rest (j + 1) (upsert acc ex.id a)

/-- Embedding of `_postprocess_qa_predictions`: the two shape `assert`s, the
grouping of windows by example (with its possible `KeyError`), then the
per-example loop. `preds` is the supplied `predictions` tuple, one entry per
array. -/
def decode (v2 : Bool) (nb ma : Nat) (thr : α) (examples : List QAExample)
    (features : List Feature) (preds : List (List (List α))) :
    Except DErr (List (String × List Char)) :=
  if preds.length ≠ 2 then .error .shape
  else if (preds.getD 0 []).length ≠ features.length then .error .shape
  else
    let ids := examples.map (·.id)
    if (List.range features.length).any
        (fun i => (lastIndexOf ids ((features.getD i default).example_id)).isNone) then
      .error .keyError
    else
      decodeLoop v2 nb ma thr ids (preds.getD 0 []) (preds.getD 1 []) features examples 0 []

end Decoder

/-! ## Feature builders (`prepare_train_features`, `prepare_validation_features`) -/

/-- Gold answers of one example, in the SQuAD batch layout used by
`prepare_train_features`: parallel lists `answer_start` and `text`. -/
structure Answers where
  answer_start : List Nat
  text : List (List Char)

/-- Embedding of
`while token_start_index < len(offsets) and offsets[token_start_index][0] <= start_char`:
the first position at or after `ts` where the loop condition fails, which is
`len(offsets)` when the scan falls off the end (and `ts` itself when `ts`
already is out of bounds). -/
def scanStart (om : List (Nat × Nat)) (sc : Nat) (ts : Nat) : Nat :=
  match (List.range' ts (om.length - ts)).find? (fun k => decide (sc < (om.getD k (0, 0)).1)) with
  | some k => k
  | none => max ts om.length

/-- Embedding of `while offsets[token_end_index][1] >= end_char: -= 1`:
the first position at or below `te` where the condition fails; `none` when
the loop would decrement past position `0` (Python then wraps around to
negative indexing). -/
def scanEnd (om : List (Nat × Nat)) (ec : Nat) (te : Nat) : Option Nat :=
  (List.range (te + 1)).reverse.find? (fun k => decide ((om.getD k (0, 0)).2 < ec))

/-- Label assignment of `prepare_train_features` for one window: `none`
embeds the Python executions that fault (no context token at all, or the
descending scan running below index `0`); otherwise the
`(start_position, end_position)` pair appended for this window.  `ctxRole` is
`1 if pad_on_right else 0`. -/
def trainLabels (inputIds : List Nat) (clsTok : Nat) (seqIds : List (Option Nat))
    (om : List (Nat × Nat)) (ctxRole : Nat) (ans : Answers) : Option (Nat × Nat) :=
  let clsIndex := inputIds.findIdx (· == clsTok)
  if ans.answer_start.length = 0 then some (clsIndex, clsIndex)
  else
    let startChar := ans.answer_start.getD 0 0
    let endChar := startChar + (ans.text.getD 0 []).length
    match seqIds.findIdx? (fun x => x == some ctxRole),
          (List.range inputIds.length).reverse.find? (fun k => seqIds.getD k none == some ctxRole) with
    | some ts0, some te0 =>
      if ¬((om.getD ts0 (0, 0)).1 ≤ startChar ∧ endChar ≤ (om.getD te0 (0, 0)).2) then
        some (clsIndex, clsIndex)
      else
        match scanEnd om endChar te0 with
        | some te => some (scanStart om startChar ts0 - 1, te + 1)
        | none => none
    | _, _ => none

/-- Per-window transformation of `prepare_validation_features`: record the
owning example's id (`examples["id"][sample_mapping[i]]`) and keep an
offset-mapping entry exactly when the token's sequence role is the context
side, nulling the others.  `ctxIdx` is `1 if pad_on_right else 0`. -/
def prepValidationWindow (exampleIds : List String) (sampleIdx : Nat)
    (seqIds : List (Option Nat)) (om : List (Nat × Nat)) (ctxIdx : Nat) :
    String × List (Option (Nat × Nat)) :=
  (exampleIds.getD sampleIdx "",
   (List.range om.length).map (fun k =>
     if seqIds.getD k none == some ctxIdx then some (om.getD k (0, 0)) else none))

/-! ## Softmax step (decoder lines 311-316), over `ℝ` -/

/-- Embedding of `exp_scores = np.exp(scores - np.max(scores));
probs = exp_scores / exp_scores.sum()`. -/
noncomputable def softmaxProbs (scores : List ℝ) : List ℝ :=
  (scores.map (fun s => Real.exp (s - scores.foldl max (scores.headD 0)))).map
    (fun e => e / (scores.map (fun s => Real.exp (s - scores.foldl max (scores.headD 0)))).sum)

/-! ## Specification-side definition for the refinement comparison in C4 -/

/-- Specification-side definition, written from the spec's words rather than
the source, for comparison with `trainLabels`: the tightest token pair inside
the context range `[ts0, te0]` whose combined character coverage contains
`[sc, ec)` — the largest index whose token starts at or before `sc`, paired
with the smallest index whose token ends at or after `ec`. -/
def specTightestPair (om : List (Nat × Nat)) (ts0 te0 sc ec : Nat) : Nat × Nat :=
  ((((List.range' ts0 (te0 + 1 - ts0)).reverse.find?
      (fun i => decide ((om.getD i (0, 0)).1 ≤ sc))).getD ts0),
   (((List.range' ts0 (te0 + 1 - ts0)).find?
      (fun i => decide (ec ≤ (om.getD i (0, 0)).2))).getD te0))

/-! ## Helper lemmas (shared) -/

/-- The skip loop's `find?` returns the first candidate with non-empty text. -/
lemma find?_skip_empty {α : Type} (pre post : List (Cand α)) (p : Cand α)
    (hpre : ∀ q ∈ pre, q.text = []) (hp : p.text ≠ []) :
    (pre ++ p :: post).find? (fun c => !c.text.isEmpty) = some p := by
  induction pre with
  | nil =>
    have hne : (!p.text.isEmpty) = true := by
      cases hpt : p.text with
      | nil => exact absurd hpt hp
      | cons a l => simp [hpt]
    rw [List.nil_append]
    simp only [List.find?, hne]
  | cons q rest ih =>
    have hq : q.text = [] := hpre q (by simp)
    have hqe : (!q.text.isEmpty) = false := by simp [hq]
    rw [List.cons_append]
    simp only [List.find?, hqe]
    exact ih (fun r hr => hpre r (by simp [hr]))

/-- Raising the threshold preserves a non-empty selected answer. -/
lemma selectAnswer_mono {α : Type} [LinearOrderedAddCommGroup α] (ns t1 t2 : α) (preds : List (Cand α)) (a : List Char)
    (h12 : t1 ≤ t2) (h : selectAnswer true ns t1 preds = Except.ok a) (ha : a ≠ []) :
    selectAnswer true ns t2 preds = Except.ok a := by
  cases hf : preds.find? (fun c => !c.text.isEmpty) with
  | none => simp [selectAnswer, hf] at h
  | some p =>
    simp only [selectAnswer, hf, if_true] at h ⊢
    by_cases hgt : ns - p.start_logit - p.end_logit > t1
    · rw [if_pos hgt] at h
      exact absurd (Except.ok.inj h).symm ha
    · rw [if_neg hgt] at h
      have hgt2 : ¬(ns - p.start_logit - p.end_logit > t2) :=
        fun hc => hgt (lt_of_le_of_lt h12 hc)
      rw [if_neg hgt2]
      exact h

/-! ## Claims C1, C3, C5, C9 -/

/-- Claim C1: in version-2 mode, when the surviving ranked candidate list
contains a non-empty-text entry, the decoder selects the first candidate in
rank order whose text is non-empty, computes
`score_diff = null_score - start_logit - end_logit` of that candidate, and
answers the empty string when `score_diff` strictly exceeds the threshold and
that candidate's text otherwise. -/
theorem c1_null_threshold_selection {α : Type} [LinearOrderedAddCommGroup α]
    (nullScore thr : α) (pre post : List (Cand α)) (p : Cand α)
    (hpre : ∀ q ∈ pre, q.text = []) (hp : p.text ≠ []) :
    selectAnswer true nullScore thr (pre ++ p :: post) =
      Except.ok (if nullScore - p.start_logit - p.end_logit > thr then [] else p.text) := by
  unfold selectAnswer
  rw [find?_skip_empty pre post p hpre hp]
  simp

/-- Witness for C1 at a concrete list: one leading empty-text candidate, then
a non-empty one; the null score margin exceeds the threshold, so the empty
answer is returned. -/
theorem c1_witness :
    (∀ q ∈ [(⟨[], 0, 0, 0⟩ : Cand ℤ)], q.text = []) ∧ ((⟨['x'], 3, 1, 1⟩ : Cand ℤ).text ≠ []) ∧
    selectAnswer true (5 : ℤ) 0 ([⟨[], 0, 0, 0⟩] ++ (⟨['x'], 3, 1, 1⟩ : Cand ℤ) :: []) =
      Except.ok (if (5 : ℤ) - (⟨['x'], 3, 1, 1⟩ : Cand ℤ).start_logit -
          (⟨['x'], 3, 1, 1⟩ : Cand ℤ).end_logit > 0 then [] else (⟨['x'], 3, 1, 1⟩ : Cand ℤ).text) :=
  ⟨by decide, by decide,
   c1_null_threshold_selection (5 : ℤ) 0 [⟨[], 0, 0, 0⟩] [] ⟨['x'], 3, 1, 1⟩
     (by decide) (by decide)⟩

/-- Claim C3: in version-2 mode, with every other input fixed, if the decoder
returns a non-empty answer for an example at threshold `t1` then it returns
that same non-empty answer at any threshold `t2 ≥ t1`: raising the threshold
never flips a prediction from non-empty to empty. -/
theorem c3_threshold_monotone {α : Type} [LinearOrderedAddCommGroup α]
    (nb ma : Nat) (t1 t2 : α) (context : List Char) (allSL allEL : List (List α))
    (features : List Feature) (featIdxs : List Nat) (a : List Char)
    (h12 : t1 ≤ t2)
    (h1 : decodeExample true nb ma t1 context allSL allEL features featIdxs = Except.ok a)
    (ha : a ≠ []) :
    decodeExample true nb ma t2 context allSL allEL features featIdxs = Except.ok a := by
  cases hmn : computeMinNull allSL allEL featIdxs with
  | none => simp [decodeExample, hmn] at h1
  | some mn =>
    simp only [decodeExample, hmn, if_true] at h1 ⊢
    exact selectAnswer_mono _ t1 t2 _ a h12 h1 ha

/-- Witness for C3 at a concrete input: one window, answer `"ab"` returned at
threshold `0`, hence also at threshold `1`. -/
theorem c3_witness :
    ((0 : ℤ) ≤ 1) ∧
    (decodeExample true 2 30 (0 : ℤ) ['a', 'b'] [[1, 2]] [[1, 2]]
       [⟨"e1", [none, some (0, 2)], none⟩] [0] = Except.ok ['a', 'b']) ∧
    (['a', 'b'] ≠ ([] : List Char)) ∧
    decodeExample true 2 30 (1 : ℤ) ['a', 'b'] [[1, 2]] [[1, 2]]
      [⟨"e1", [none, some (0, 2)], none⟩] [0] = Except.ok ['a', 'b'] :=
  ⟨by decide, rfl, by decide,
   c3_threshold_monotone 2 30 (0 : ℤ) 1 ['a', 'b'] [[1, 2]] [[1, 2]]
     [⟨"e1", [none, some (0, 2)], none⟩] [0] ['a', 'b'] (by decide) rfl (by decide)⟩

/-- Claim C5: when an example's candidate list after ranking and text
resolution is empty, or is a single candidate with empty text, the decoder
inserts the synthetic placeholder candidate (text `"empty"`, zero score and
logits) at the front instead of raising. -/
theorem c5_placeholder_inserted {α : Type} [LinearOrderedAddCommGroup α]
    (preds : List (Cand α))
    (h : preds = [] ∨ ∃ p, preds = [p] ∧ p.text = []) :
    ensureNonEmpty preds = phPred :: preds := by
  rcases h with rfl | ⟨p, rfl, hp⟩
  · rfl
  · simp [ensureNonEmpty, hp]

/-- Witness for C5 at a concrete singleton empty-text list. -/
theorem c5_witness :
    (([(⟨[], 0, 0, 0⟩ : Cand ℤ)] = []) ∨
      ∃ p, [(⟨[], 0, 0, 0⟩ : Cand ℤ)] = [p] ∧ p.text = []) ∧
    ensureNonEmpty [(⟨[], 0, 0, 0⟩ : Cand ℤ)] = phPred :: [⟨[], 0, 0, 0⟩] :=
  ⟨Or.inr ⟨⟨[], 0, 0, 0⟩, rfl, rfl⟩,
   c5_placeholder_inserted _ (Or.inr ⟨⟨[], 0, 0, 0⟩, rfl, rfl⟩)⟩

/-- Counterexample for C9 as stated: a concrete decode input (one example,
one window whose only context token has character offsets `(0, 0)`) on which
every surviving candidate resolves to empty text while the list has two
entries, so the placeholder guard does not fire and the empty-text skip loop
runs out of bounds (Python's `IndexError`, embedded as `DErr.loopOOB`). -/
theorem c9_counterexample :
    decode true 2 30 (0 : ℤ) [⟨"e", ['x']⟩] [⟨"e", [none, some (0, 0)], none⟩]
      [[[5, 4]], [[5, 4]]] = Except.error DErr.loopOOB := rfl

/-- Claim C9 (amended): the skip loop stays in bounds whenever the pre-guard
candidate list has at most one entry (the cases the placeholder guard covers)
or some candidate's text is non-empty; with two or more surviving candidates
all of empty text the access is out of bounds, as the counterexample shows. -/
theorem c9_skip_loop_in_bounds {α : Type} [LinearOrderedAddCommGroup α]
    (ns thr : α) (l : List (Cand α))
    (h : l.length ≤ 1 ∨ ∃ p ∈ l, p.text ≠ []) :
    ∃ a, selectAnswer true ns thr (ensureNonEmpty l) = Except.ok a := by
  have key : ∀ (m : List (Cand α)), (∃ p ∈ m, p.text ≠ []) →
      ∃ a, selectAnswer true ns thr m = Except.ok a := by
    intro m hm
    have hsome : (m.find? (fun c => !c.text.isEmpty)).isSome := by
      rw [List.find?_isSome]
      rcases hm with ⟨p, hpm, hp⟩
      refine ⟨p, hpm, ?_⟩
      cases hpt : p.text with
      | nil => exact absurd hpt hp
      | cons a l => simp [hpt]
    cases hf : m.find? (fun c => !c.text.isEmpty) with
    | none => rw [hf] at hsome; simp at hsome
    | some p =>
      refine ⟨if ns - p.start_logit - p.end_logit > thr then [] else p.text, ?_⟩
      simp [selectAnswer, hf]
  rcases h with hlen | hex
  · match l, hlen with
    | [], _ =>
      exact key [phPred] ⟨phPred, by simp, by simp [phPred]⟩
    | [p], _ =>
      by_cases hp : p.text = []
      · refine key (ensureNonEmpty [p]) ?_
        refine ⟨phPred, ?_, by simp [phPred]⟩
        simp [ensureNonEmpty, hp]
      · refine key (ensureNonEmpty [p]) ?_
        refine ⟨p, ?_, hp⟩
        simp [ensureNonEmpty, hp]
  · rcases hex with ⟨p, hpl, hp⟩
    match l, hpl with
    | [q], hpl =>
      have : p = q := by simpa using hpl
      subst this
      refine key (ensureNonEmpty [p]) ⟨p, ?_, hp⟩
      simp [ensureNonEmpty, hp]
    | q1 :: q2 :: rest, hpl =>
      refine key (ensureNonEmpty (q1 :: q2 :: rest)) ⟨p, ?_, hp⟩
      simpa [ensureNonEmpty] using hpl

/-- Witness for C9's amended statement on a concrete empty list. -/
theorem c9_witness :
    ((([] : List (Cand ℤ)).length ≤ 1 ∨ ∃ p ∈ ([] : List (Cand ℤ)), p.text ≠ []) ∧
      ∃ a, selectAnswer true (0 : ℤ) 0 (ensureNonEmpty ([] : List (Cand ℤ))) = Except.ok a) :=
  ⟨Or.inl (by decide), c9_skip_loop_in_bounds (0 : ℤ) 0 [] (Or.inl (by decide))⟩

/-! ## Claim C2 -/

/-- Characterization of one loop-body step: a candidate is produced exactly
when every rejection test passes, and then its fields are determined by the
pair of indices. -/
lemma candAt_eq_some_iff {α : Type} [LinearOrderedAddCommGroup α] (ma : Nat) (sl el : List α)
    (om : List (Option (Nat × Nat))) (timc : Option (Nat → Bool)) (s e : Nat) (c : Prelim α) :
    candAt ma sl el om timc s e = some c ↔
      s < om.length ∧ e < om.length ∧
      om.getD s none ≠ none ∧ om.getD e none ≠ none ∧
      s ≤ e ∧ e - s + 1 ≤ ma ∧
      (∀ f, timc = some f → f s = true) ∧
      c = ⟨(((om.getD s none).getD (0, 0)).1, ((om.getD e none).getD (0, 0)).2),
           sl.getD s 0 + el.getD e 0, sl.getD s 0, el.getD e 0⟩ := by
  unfold candAt
  split_ifs with h1 h2 h3
  · constructor
    · intro h; exact absurd h (by simp)
    · rintro ⟨hs, he, hos, hoe, -, -, -, -⟩
      rcases h1 with h | h | h | h
      · omega
      · omega
      · exact hos h
      · exact hoe h
  · constructor
    · intro h; exact absurd h (by simp)
    · rintro ⟨-, -, -, -, hse, hma, -, -⟩
      rcases h2 with h | h
      · omega
      · omega
  · constructor
    · intro h; exact absurd h (by simp)
    · rintro ⟨-, -, -, -, -, -, htimc, -⟩
      cases htc : timc with
      | none => rw [htc] at h3; simp [timcBlocks] at h3
      | some f =>
        rw [htc] at h3
        have hfs := htimc f htc
        simp [timcBlocks, hfs] at h3
  · push_neg at h1 h2
    constructor
    · intro h
      have hc := (Option.some.inj h).symm
      refine ⟨h1.1, h1.2.1, h1.2.2.1, h1.2.2.2, h2.1, h2.2, ?_, hc⟩
      intro f hf
      rw [hf] at h3
      simpa [timcBlocks] using h3
    · rintro ⟨-, -, -, -, -, -, -, rfl⟩
      rfl

/-- Claim C2: a candidate span is emitted for a window exactly when its
generating `(start, end)` pair comes from the two top-`n_best_size` index
lists and passes every filter: both indices within the offset-mapping bounds,
both offsets non-absent, `start ≤ end`, token span length at most
`max_answer_length`, and, when a max-context table is present, the table
marking this window authoritative for the start token; the candidate then
carries that pair's offsets, score and logits.  Violating pairs contribute
nothing. -/
theorem c2_candidate_invariants {α : Type} [LinearOrderedAddCommGroup α]
    (nb ma : Nat) (sl el : List α) (om : List (Option (Nat × Nat)))
    (timc : Option (Nat → Bool)) (c : Prelim α) :
    c ∈ candidatesFor nb ma sl el om timc ↔
      ∃ s e, s ∈ topIndices nb sl ∧ e ∈ topIndices nb el ∧
        s < om.length ∧ e < om.length ∧
        om.getD s none ≠ none ∧ om.getD e none ≠ none ∧
        s ≤ e ∧ e - s + 1 ≤ ma ∧
        (∀ f, timc = some f → f s = true) ∧
        c = ⟨(((om.getD s none).getD (0, 0)).1, ((om.getD e none).getD (0, 0)).2),
             sl.getD s 0 + el.getD e 0, sl.getD s 0, el.getD e 0⟩ := by
  simp only [candidatesFor, List.mem_flatMap, List.mem_filterMap, candAt_eq_some_iff]
  constructor
  · rintro ⟨s, hs, e, he, h⟩
    exact ⟨s, e, hs, he, h⟩
  · rintro ⟨s, e, hs, he, h⟩
    exact ⟨s, hs, e, he, h⟩

/-! ## Claim C6 -/

/-- `selectAnswer` never produces the shape error. -/
lemma selectAnswer_ne_shape {α : Type} [LinearOrderedAddCommGroup α]
    (v2 : Bool) (ns thr : α) (preds : List (Cand α)) :
    selectAnswer v2 ns thr preds ≠ Except.error DErr.shape := by
  cases v2 with
  | true =>
    cases hf : preds.find? (fun c => !c.text.isEmpty) with
    | none => simp [selectAnswer, hf]
    | some p => simp [selectAnswer, hf]
  | false =>
    cases preds with
    | nil => simp [selectAnswer]
    | cons p rest => simp [selectAnswer]

/-- `decodeExample` never produces the shape error. -/
lemma decodeExample_ne_shape {α : Type} [LinearOrderedAddCommGroup α]
    (v2 : Bool) (nb ma : Nat) (thr : α) (context : List Char)
    (allSL allEL : List (List α)) (features : List Feature) (featIdxs : List Nat) :
    decodeExample v2 nb ma thr context allSL allEL features featIdxs ≠
      Except.error DErr.shape := by
  cases v2 with
  | true =>
    cases hmn : computeMinNull allSL allEL featIdxs with
    | none => simp [decodeExample, hmn]
    | some mn =>
      simp only [decodeExample, hmn, if_true]
      exact selectAnswer_ne_shape _ _ _ _
  | false =>
    simp only [decodeExample, Bool.false_eq_true, if_false]
    exact selectAnswer_ne_shape _ _ _ _

/-- `decodeLoop` never produces the shape error. -/
lemma decodeLoop_ne_shape {α : Type} [LinearOrderedAddCommGroup α]
    (v2 : Bool) (nb ma : Nat) (thr : α) (ids : List String)
    (allSL allEL : List (List α)) (features : List Feature) :
    ∀ (exs : List QAExample) (j : Nat) (acc : List (String × List Char)),
      decodeLoop v2 nb ma thr ids allSL allEL features exs j acc ≠
        Except.error DErr.shape := by
  intro exs
  induction exs with
  | nil => intro j acc; simp [decodeLoop]
  | cons ex rest ih =>
    intro j acc
    cases hde : decodeExample v2 nb ma thr ex.context allSL allEL features
        (featureIndicesFor ids features j) with
    | error e =>
      simp only [decodeLoop, hde]
      intro hcontra
      injection hcontra with he
      exact decodeExample_ne_shape _ _ _ _ _ _ _ _ _ (he ▸ hde)
    | ok a =>
      simp only [decodeLoop, hde]
      exact ih (j + 1) (upsert acc ex.id a)

/-- Claim C6: the decode fails with the shape-mismatch error exactly when the
supplied predictions are not a two-array pair or the start-logits array's
length differs from the window count; no other input reaches those branches. -/
theorem c6_shape_error_iff {α : Type} [LinearOrderedAddCommGroup α]
    (v2 : Bool) (nb ma : Nat) (thr : α) (examples : List QAExample)
    (features : List Feature) (preds : List (List (List α))) :
    decode v2 nb ma thr examples features preds = Except.error DErr.shape ↔
      preds.length ≠ 2 ∨ (preds.getD 0 []).length ≠ features.length := by
  simp only [decode]
  split_ifs with h1 h2 h3
  · constructor
    · intro _; exact Or.inl h1
    · intro _; rfl
  · constructor
    · intro _; exact Or.inr h2
    · intro _; rfl
  · push_neg at h1 h2
    constructor
    · intro h; injection h with h; exact absurd h (by decide)
    · intro h; rcases h with h | h
      · exact absurd h1 h
      · exact absurd h2 h
  · push_neg at h1 h2
    constructor
    · intro h
      exact absurd h (decodeLoop_ne_shape _ _ _ _ _ _ _ _ _ _ _)
    · intro h
      rcases h with h | h
      · exact absurd h1 h
      · exact absurd h2 h

/-! ## Claim C10 -/

/-- Dictionary assignment with a fresh key appends the pair at the end. -/
lemma upsert_not_mem (acc : List (String × List Char)) (k : String) (v : List Char)
    (h : k ∉ acc.map Prod.fst) : upsert acc k v = acc ++ [(k, v)] := by
  have hno : ¬(acc.any (fun kv => kv.1 == k) = true) := by
    simp only [List.any_eq_true]
    rintro ⟨kv, hkv, hbeq⟩
    exact h (List.mem_map.2 ⟨kv, hkv, by simpa using hbeq⟩)
  unfold upsert
  rw [if_neg hno]

/-- Keys of the decoder's result dictionary: with pairwise-distinct example
ids the loop appends one entry per processed example, in order. -/
lemma decodeLoop_keys {α : Type} [LinearOrderedAddCommGroup α]
    (v2 : Bool) (nb ma : Nat) (thr : α) (ids : List String)
    (allSL allEL : List (List α)) (features : List Feature) :
    ∀ (exs : List QAExample) (j : Nat) (acc m : List (String × List Char)),
      (exs.map (·.id)).Nodup →
      (∀ ex ∈ exs, ex.id ∉ acc.map Prod.fst) →
      decodeLoop v2 nb ma thr ids allSL allEL features exs j acc = Except.ok m →
      m.map Prod.fst = acc.map Prod.fst ++ exs.map (·.id) := by
  intro exs
  induction exs with
  | nil =>
    intro j acc m _ _ h
    simp only [decodeLoop] at h
    injection h with h
    subst h
    simp
  | cons ex rest ih =>
    intro j acc m hnodup hacc h
    cases hde : decodeExample v2 nb ma thr ex.context allSL allEL features
        (featureIndicesFor ids features j) with
    | error e =>
      simp only [decodeLoop, hde] at h
      exact absurd h (by simp)
    | ok a =>
      simp only [decodeLoop, hde] at h
      have hnot : ex.id ∉ acc.map Prod.fst := hacc ex (by simp)
      rw [upsert_not_mem acc ex.id a hnot] at h
      have hndrest : (rest.map (·.id)).Nodup := (List.nodup_cons.1 (by simpa using hnodup)).2
      have hhead : ex.id ∉ rest.map (·.id) := (List.nodup_cons.1 (by simpa using hnodup)).1
      have hrest : m.map Prod.fst = (acc ++ [(ex.id, a)]).map Prod.fst ++ rest.map (·.id) := by
        apply ih (j + 1) (acc ++ [(ex.id, a)]) m hndrest
        · intro ex' hex' hin
          rw [List.map_append, List.mem_append] at hin
          rcases hin with hin | hin
          · exact hacc ex' (List.mem_cons_of_mem ex hex') hin
          · have heq : ex'.id = ex.id := by simpa using hin
            exact hhead (heq ▸ List.mem_map.2 ⟨ex', hex', rfl⟩)
        · exact h
      rw [hrest]
      simp [List.map_append]

/-- Claim C10: a decode call whose examples have pairwise-distinct ids and
each own at least one window returns, when it succeeds, a mapping with
exactly one entry per input example, keyed by the example's id, in input
order — no example skipped and no extra key. -/
theorem c10_one_entry_per_example {α : Type} [LinearOrderedAddCommGroup α]
    (v2 : Bool) (nb ma : Nat) (thr : α) (examples : List QAExample)
    (features : List Feature) (preds : List (List (List α)))
    (m : List (String × List Char))
    (hids : (examples.map (·.id)).Nodup)
    (_hwin : ∀ ex ∈ examples, ∃ i, i < features.length ∧
        (features.getD i default).example_id = ex.id)
    (hok : decode v2 nb ma thr examples features preds = Except.ok m) :
    m.map Prod.fst = examples.map (·.id) := by
  simp only [decode] at hok
  split_ifs at hok with h1 h2 h3
  simpa using decodeLoop_keys v2 nb ma thr (examples.map (·.id)) _ _ features
    examples 0 [] m hids (by simp) hok

/-- Witness for C10 at a concrete single-example decode. -/
theorem c10_witness :
    (([⟨"e1", ['a', 'b']⟩] : List QAExample).map (·.id)).Nodup ∧
    (∀ ex ∈ ([⟨"e1", ['a', 'b']⟩] : List QAExample), ∃ i,
        i < ([⟨"e1", [none, some (0, 2)], none⟩] : List Feature).length ∧
        (([⟨"e1", [none, some (0, 2)], none⟩] : List Feature).getD i default).example_id = ex.id) ∧
    decode false 2 30 (0 : ℤ) [⟨"e1", ['a', 'b']⟩] [⟨"e1", [none, some (0, 2)], none⟩]
      [[[1, 2]], [[1, 2]]] = Except.ok [("e1", ['a', 'b'])] ∧
    [("e1", ['a', 'b'])].map Prod.fst = ([⟨"e1", ['a', 'b']⟩] : List QAExample).map (·.id) :=
  ⟨by simp,
   by
     intro ex hex
     have hx : ex = ⟨"e1", ['a', 'b']⟩ := by simpa using hex
     subst hx
     exact ⟨0, by decide, rfl⟩,
   rfl,
   c10_one_entry_per_example false 2 30 (0 : ℤ) [⟨"e1", ['a', 'b']⟩]
     [⟨"e1", [none, some (0, 2)], none⟩] [[[1, 2]], [[1, 2]]] [("e1", ['a', 'b'])]
     (by simp)
     (by
       intro ex hex
       have hx : ex = ⟨"e1", ['a', 'b']⟩ := by simpa using hex
       subst hx
       exact ⟨0, by decide, rfl⟩)
     rfl⟩

/-! ## Claim C7 -/

/-- Claim C7: a validation-mode window records its owning example's id, its
rebuilt offset mapping has one entry per token, an entry is kept exactly when
the token's sequence role is the context side (all others become the absent
marker), and every kept entry is the token's original character span. -/
theorem c7_validation_offsets (ids : List String) (sampleIdx : Nat)
    (seqIds : List (Option Nat)) (om : List (Nat × Nat)) (ctxIdx : Nat)
    (hs : sampleIdx < ids.length) :
    (prepValidationWindow ids sampleIdx seqIds om ctxIdx).1 = ids.get ⟨sampleIdx, hs⟩ ∧
    (prepValidationWindow ids sampleIdx seqIds om ctxIdx).2.length = om.length ∧
    ∀ k, k < om.length →
      (((prepValidationWindow ids sampleIdx seqIds om ctxIdx).2.getD k none ≠ none ↔
          seqIds.getD k none = some ctxIdx) ∧
        (seqIds.getD k none = some ctxIdx →
          (prepValidationWindow ids sampleIdx seqIds om ctxIdx).2.getD k none =
            some (om.getD k (0, 0)))) := by
  refine ⟨?_, ?_, ?_⟩
  · simp [prepValidationWindow, List.getD_eq_getElem?_getD, List.getElem?_eq_getElem hs]
  · simp [prepValidationWindow]
  · intro k hk
    have hval : (prepValidationWindow ids sampleIdx seqIds om ctxIdx).2.getD k none =
        (if seqIds.getD k none == some ctxIdx then some (om.getD k (0, 0)) else none) := by
      simp [prepValidationWindow, List.getD_eq_getElem?_getD, List.getElem?_map,
        List.getElem?_range hk]
    constructor
    · rw [hval]
      by_cases hctx : seqIds.getD k none = some ctxIdx
      · simp [hctx]
      · simp only [beq_iff_eq]
        rw [if_neg hctx]
        constructor
        · intro hne; exact absurd rfl hne
        · intro hcc; exact absurd hcc hctx
    · intro hctx
      rw [hval, if_pos (by rw [hctx]; exact beq_self_eq_true (some ctxIdx))]

/-- Witness for C7 at a concrete window. -/
theorem c7_witness :
    (0 < (["q1"] : List String).length) ∧
    ((prepValidationWindow ["q1"] 0 [none, some 0, some 1, none]
        [(0, 0), (0, 4), (0, 5), (0, 0)] 1).1 = (["q1"] : List String).get ⟨0, by decide⟩ ∧
      (prepValidationWindow ["q1"] 0 [none, some 0, some 1, none]
        [(0, 0), (0, 4), (0, 5), (0, 0)] 1).2.length =
        ([(0, 0), (0, 4), (0, 5), (0, 0)] : List (Nat × Nat)).length ∧
      ∀ k, k < ([(0, 0), (0, 4), (0, 5), (0, 0)] : List (Nat × Nat)).length →
        (((prepValidationWindow ["q1"] 0 [none, some 0, some 1, none]
            [(0, 0), (0, 4), (0, 5), (0, 0)] 1).2.getD k none ≠ none ↔
            ([none, some 0, some 1, none] : List (Option Nat)).getD k none = some 1) ∧
          (([none, some 0, some 1, none] : List (Option Nat)).getD k none = some 1 →
            (prepValidationWindow ["q1"] 0 [none, some 0, some 1, none]
              [(0, 0), (0, 4), (0, 5), (0, 0)] 1).2.getD k none =
              some (([(0, 0), (0, 4), (0, 5), (0, 0)] : List (Nat × Nat)).getD k (0, 0))))) :=
  ⟨by decide,
   c7_validation_offsets ["q1"] 0 [none, some 0, some 1, none]
     [(0, 0), (0, 4), (0, 5), (0, 0)] 1 (by decide)⟩

/-! ## Claim C8 -/

/-- Distributing a division over a list sum. -/
lemma list_sum_map_div (l : List ℝ) (c : ℝ) :
    (l.map (fun e => e / c)).sum = l.sum / c := by
  induction l with
  | nil => simp
  | cons x t ih => simp [ih, add_div]

/-- Claim C8: the probabilities assigned to an example's surviving candidates
come from the numerically-stable softmax (scores shifted by their maximum
before exponentiation) over the surviving set; each probability is
non-negative and they sum to exactly 1 in the real-number model. -/
theorem c8_softmax_distribution (scores : List ℝ) (h : scores ≠ []) :
    (∀ p ∈ softmaxProbs scores, 0 ≤ p) ∧ (softmaxProbs scores).sum = 1 := by
  have hespos : ∀ x ∈ scores.map (fun s => Real.exp (s - scores.foldl max (scores.headD 0))),
      0 < x := by
    intro x hx
    rcases List.mem_map.1 hx with ⟨s, -, rfl⟩
    exact Real.exp_pos _
  have hesne : scores.map (fun s => Real.exp (s - scores.foldl max (scores.headD 0))) ≠ [] := by
    intro hc
    exact h (List.map_eq_nil_iff.1 hc)
  have hsum : 0 < (scores.map (fun s => Real.exp (s - scores.foldl max (scores.headD 0)))).sum :=
    List.sum_pos _ hespos hesne
  constructor
  · intro p hp
    unfold softmaxProbs at hp
    rcases List.mem_map.1 hp with ⟨e, he, rfl⟩
    exact div_nonneg (le_of_lt (hespos e he)) (le_of_lt hsum)
  · unfold softmaxProbs
    rw [list_sum_map_div]
    exact div_self (ne_of_gt hsum)

/-- Witness for C8 at a concrete two-score list. -/
theorem c8_witness :
    ([(1 : ℝ), 2] ≠ []) ∧
    ((∀ p ∈ softmaxProbs [(1 : ℝ), 2], 0 ≤ p) ∧ (softmaxProbs [(1 : ℝ), 2]).sum = 1) :=
  ⟨List.cons_ne_nil 1 [2], c8_softmax_distribution [1, 2] (List.cons_ne_nil 1 [2])⟩

/-! ## Claim C4 -/

/-- `find?` on an ascending index range returns the first index satisfying
the test. -/
lemma range'_find?_eq_some {p : Nat → Bool} {a n k : Nat} :
    (List.range' a n).find? p = some k ↔
      a ≤ k ∧ k < a + n ∧ p k = true ∧ ∀ j, a ≤ j → j < k → p j = false := by
  induction n generalizing a with
  | zero =>
    rw [List.range'_zero]
    constructor
    · intro h; exact absurd h (by simp)
    · rintro ⟨h1, h2, -, -⟩; omega
  | succ n ih =>
    rw [List.range'_succ]
    by_cases hpa : p a = true
    · simp only [List.find?, hpa]
      constructor
      · intro h
        injection h with h
        subst h
        exact ⟨le_refl a, by omega, hpa, fun j hj1 hj2 => by omega⟩
      · rintro ⟨h1, h2, hk, hmin⟩
        by_cases hka : k = a
        · subst hka; rfl
        · have hfa : p a = false := hmin a (le_refl a) (by omega)
          rw [hpa] at hfa
          cases hfa
    · have hpa' : p a = false := by
        cases hb : p a
        · rfl
        · exact absurd hb hpa
      simp only [List.find?, hpa']
      rw [ih]
      constructor
      · rintro ⟨h1, h2, hk, hmin⟩
        refine ⟨by omega, by omega, hk, ?_⟩
        intro j hj1 hj2
        rcases Nat.eq_or_lt_of_le hj1 with rfl | hj
        · exact hpa'
        · exact hmin j (by omega) hj2
      · rintro ⟨h1, h2, hk, hmin⟩
        have hka : k ≠ a := by
          intro hc; subst hc; rw [hk] at hpa'; cases hpa'
        exact ⟨by omega, by omega, hk, fun j hj1 hj2 => hmin j (by omega) hj2⟩

/-- `find?` on a descending index range returns the last index satisfying the
test. -/
lemma rev_range_find?_eq_some {q : Nat → Bool} {n k : Nat} :
    (List.range n).reverse.find? q = some k ↔
      k < n ∧ q k = true ∧ ∀ j, k < j → j < n → q j = false := by
  induction n with
  | zero =>
    constructor
    · intro h; exact absurd h (by simp)
    · rintro ⟨h1, -, -⟩; omega
  | succ n ih =>
    have hrw : (List.range (n + 1)).reverse = n :: (List.range n).reverse := by
      rw [List.range_succ, List.reverse_append]
      simp
    rw [hrw]
    by_cases hqn : q n = true
    · simp only [List.find?, hqn]
      constructor
      · intro h
        injection h with h
        subst h
        exact ⟨by omega, hqn, fun j hj1 hj2 => by omega⟩
      · rintro ⟨h1, hk, hmin⟩
        by_cases hkn : k = n
        · subst hkn; rfl
        · have hfn : q n = false := hmin n (by omega) (by omega)
          rw [hqn] at hfn
          cases hfn
    · have hqn' : q n = false := by
        cases hb : q n
        · rfl
        · exact absurd hb hqn
      simp only [List.find?, hqn']
      rw [ih]
      constructor
      · rintro ⟨h1, hk, hmin⟩
        refine ⟨by omega, hk, ?_⟩
        intro j hj1 hj2
        rcases Nat.lt_succ_iff_lt_or_eq.1 hj2 with hj | rfl
        · exact hmin j hj1 hj
        · exact hqn'
      · rintro ⟨h1, hk, hmin⟩
        have hkn : k ≠ n := by
          intro hc; subst hc; rw [hk] at hqn'; cases hqn'
        exact ⟨by omega, hk, fun j hj1 hj2 => hmin j hj1 (by omega)⟩

/-- Specification of the forward label scan when the answer starts strictly
before the last context token: the loop stops inside the context range, just
past the last token starting at or before `sc`. -/
lemma scanStart_spec (om : List (Nat × Nat)) (sc ts0 te0 : Nat)
    (horder : ts0 ≤ te0) (hlen : te0 < om.length)
    (hstart0 : (om.getD ts0 (0, 0)).1 ≤ sc) (hstop : sc < (om.getD te0 (0, 0)).1) :
    ts0 < scanStart om sc ts0 ∧ scanStart om sc ts0 ≤ te0 ∧
    sc < (om.getD (scanStart om sc ts0) (0, 0)).1 ∧
    ∀ i, ts0 ≤ i → i < scanStart om sc ts0 → (om.getD i (0, 0)).1 ≤ sc := by
  cases hf : (List.range' ts0 (om.length - ts0)).find?
      (fun k => decide (sc < (om.getD k (0, 0)).1)) with
  | none =>
    exfalso
    rw [List.find?_eq_none] at hf
    have hmem : te0 ∈ List.range' ts0 (om.length - ts0) := by
      rw [List.mem_range'_1]
      omega
    exact hf te0 hmem (by simp only [decide_eq_true_eq]; exact hstop)
  | some k =>
    have heq : scanStart om sc ts0 = k := by
      unfold scanStart
      rw [hf]
    rw [heq]
    rw [range'_find?_eq_some] at hf
    obtain ⟨hk1, hk2, hk3, hk4⟩ := hf
    have hkp : sc < (om.getD k (0, 0)).1 := by
      simp only [decide_eq_true_eq] at hk3
      exact hk3
    have hts0k : ts0 ≠ k := by
      intro hc
      subst hc
      omega
    have hkte0 : k ≤ te0 := by
      by_contra hgt
      push_neg at hgt
      have hfe := hk4 te0 horder hgt
      simp only [decide_eq_false_iff_not] at hfe
      omega
    refine ⟨by omega, hkte0, hkp, ?_⟩
    intro i hi1 hi2
    have hfi := hk4 i hi1 hi2
    simp only [decide_eq_false_iff_not] at hfi
    omega

/-- Specification of the backward label scan when the answer ends strictly
after the first context token: the loop stops inside the context range, just
below the first token ending at or after `ec`. -/
lemma scanEnd_spec (om : List (Nat × Nat)) (ec ts0 te0 : Nat)
    (horder : ts0 ≤ te0)
    (hend0 : ec ≤ (om.getD te0 (0, 0)).2) (hstop : (om.getD ts0 (0, 0)).2 < ec) :
    ∃ k, scanEnd om ec te0 = some k ∧ ts0 ≤ k ∧ k < te0 ∧
      (om.getD k (0, 0)).2 < ec ∧ ec ≤ (om.getD (k + 1) (0, 0)).2 ∧
      ∀ j, k < j → j ≤ te0 → ec ≤ (om.getD j (0, 0)).2 := by
  unfold scanEnd
  cases hf : (List.range (te0 + 1)).reverse.find?
      (fun k => decide ((om.getD k (0, 0)).2 < ec)) with
  | none =>
    exfalso
    rw [List.find?_eq_none] at hf
    have hmem : ts0 ∈ (List.range (te0 + 1)).reverse := by
      rw [List.mem_reverse, List.mem_range]
      omega
    exact hf ts0 hmem (by simp only [decide_eq_true_eq]; exact hstop)
  | some k =>
    rw [rev_range_find?_eq_some] at hf
    obtain ⟨hk1, hk2, hk3⟩ := hf
    have hkp : (om.getD k (0, 0)).2 < ec := by
      simp only [decide_eq_true_eq] at hk2
      exact hk2
    have hkts0 : ts0 ≤ k := by
      by_contra hlt
      push_neg at hlt
      have hfe := hk3 ts0 hlt (by omega)
      simp only [decide_eq_false_iff_not] at hfe
      omega
    have hkte0 : k ≠ te0 := by
      intro hc
      subst hc
      omega
    have hknext : ec ≤ (om.getD (k + 1) (0, 0)).2 := by
      have hfe := hk3 (k + 1) (by omega) (by omega)
      simp only [decide_eq_false_iff_not] at hfe
      omega
    refine ⟨k, rfl, hkts0, by omega, hkp, hknext, ?_⟩
    intro j hj1 hj2
    have hfe := hk3 j hj1 (by omega)
    simp only [decide_eq_false_iff_not] at hfe
    omega

/-- Claim C4 (amended): for a training window with a context token range
`[ts0, te0]` and offsets monotone on it, (1) zero answers label both
positions with the CLS index; (2) an answer span not covered by the context
ends labels with the CLS index; (3) otherwise — provided additionally that
the answer starts strictly before the last context token's start offset and
ends strictly after the first context token's end offset, so the inward scans
stay inside the context range — the labels are the tightest token pair inside
the context range whose combined character coverage contains the span: the
largest start index whose token starts at or before `start_char` and the
smallest end index whose token ends at or after `end_char`. -/
theorem c4_train_labels (inputIds : List Nat) (clsTok : Nat) (seqIds : List (Option Nat))
    (om : List (Nat × Nat)) (ctxRole : Nat) (ans : Answers) (ts0 te0 : Nat)
    (hlen : om.length = inputIds.length)
    (hts0 : seqIds.findIdx? (fun x => x == some ctxRole) = some ts0)
    (hte0 : (List.range inputIds.length).reverse.find?
        (fun k => seqIds.getD k none == some ctxRole) = some te0)
    (horder : ts0 ≤ te0)
    (hmono1 : ∀ i, i < om.length → ∀ j, j < om.length → ts0 ≤ i → i ≤ j → j ≤ te0 →
        (om.getD i (0, 0)).1 ≤ (om.getD j (0, 0)).1)
    (hmono2 : ∀ i, i < om.length → ∀ j, j < om.length → ts0 ≤ i → i ≤ j → j ≤ te0 →
        (om.getD i (0, 0)).2 ≤ (om.getD j (0, 0)).2) :
    (ans.answer_start = [] →
      trainLabels inputIds clsTok seqIds om ctxRole ans =
        some (inputIds.findIdx (· == clsTok), inputIds.findIdx (· == clsTok))) ∧
    (ans.answer_start ≠ [] →
      ¬((om.getD ts0 (0, 0)).1 ≤ ans.answer_start.getD 0 0 ∧
          ans.answer_start.getD 0 0 + (ans.text.getD 0 []).length ≤ (om.getD te0 (0, 0)).2) →
      trainLabels inputIds clsTok seqIds om ctxRole ans =
        some (inputIds.findIdx (· == clsTok), inputIds.findIdx (· == clsTok))) ∧
    (ans.answer_start ≠ [] →
      (om.getD ts0 (0, 0)).1 ≤ ans.answer_start.getD 0 0 →
      ans.answer_start.getD 0 0 + (ans.text.getD 0 []).length ≤ (om.getD te0 (0, 0)).2 →
      ans.answer_start.getD 0 0 < (om.getD te0 (0, 0)).1 →
      (om.getD ts0 (0, 0)).2 < ans.answer_start.getD 0 0 + (ans.text.getD 0 []).length →
      ∃ s e, trainLabels inputIds clsTok seqIds om ctxRole ans = some (s, e) ∧
        ts0 ≤ s ∧ s ≤ te0 ∧ ts0 ≤ e ∧ e ≤ te0 ∧
        (om.getD s (0, 0)).1 ≤ ans.answer_start.getD 0 0 ∧
        ans.answer_start.getD 0 0 + (ans.text.getD 0 []).length ≤ (om.getD e (0, 0)).2 ∧
        (∀ i, ts0 ≤ i → i ≤ te0 →
          (om.getD i (0, 0)).1 ≤ ans.answer_start.getD 0 0 → i ≤ s) ∧
        (∀ i, ts0 ≤ i → i ≤ te0 →
          ans.answer_start.getD 0 0 + (ans.text.getD 0 []).length ≤ (om.getD i (0, 0)).2 →
          e ≤ i)) := by
  have hte0lt : te0 < inputIds.length := (rev_range_find?_eq_some.1 hte0).1
  have hte0om : te0 < om.length := by omega
  refine ⟨?_, ?_, ?_⟩
  · intro hempty
    simp only [trainLabels, hempty, List.length_nil, reduceIte]
  · intro hne hnc
    have hlz : ¬(ans.answer_start.length = 0) := by
      simpa [List.length_eq_zero] using hne
    simp only [trainLabels, hts0, hte0, if_neg hlz]
    rw [if_pos hnc]
  · intro hne hA hB hsc hec
    have hlz : ¬(ans.answer_start.length = 0) := by
      simpa [List.length_eq_zero] using hne
    obtain ⟨hr1, hr2, hr3, hr4⟩ :=
      scanStart_spec om (ans.answer_start.getD 0 0) ts0 te0 horder hte0om hA hsc
    obtain ⟨k, hkeq, hk1, hk2, hkp, hk3, hk4⟩ :=
      scanEnd_spec om (ans.answer_start.getD 0 0 + (ans.text.getD 0 []).length)
        ts0 te0 horder hB hec
    refine ⟨scanStart om (ans.answer_start.getD 0 0) ts0 - 1, k + 1, ?_,
      by omega, by omega, by omega, by omega, ?_, hk3, ?_, ?_⟩
    · simp only [trainLabels, hts0, hte0, if_neg hlz]
      rw [if_neg (not_not_intro ⟨hA, hB⟩), hkeq]
    · exact hr4 _ (by omega) (by omega)
    · intro i hi1 hi2 hile
      by_contra hgt
      push_neg at hgt
      have hri : (om.getD (scanStart om (ans.answer_start.getD 0 0) ts0) (0, 0)).1 ≤
          (om.getD i (0, 0)).1 :=
        hmono1 _ (by omega) i (by omega) (by omega) (by omega) hi2
      omega
    · intro i hi1 hi2 hige
      by_contra hlt
      push_neg at hlt
      have hii : (om.getD i (0, 0)).2 ≤ (om.getD k (0, 0)).2 :=
        hmono2 i (by omega) k (by omega) hi1 (by omega) (by omega)
      omega

/-- Counterexample for C4 as stated: a realistic window
(`[CLS] question [SEP] ctx ctx [SEP]`, context tokens 3-4 with offsets
`(0,5)` and `(6,10)`, trailing special token with offsets `(0,0)`) whose
first answer `[7, 9)` starts inside the last context token.  The span is
contained in the context coverage, yet the produced labels `(5, 4)` are not
the tightest pair inside the context range (which is `(4, 4)`): the forward
scan runs past the context because the trailing special token's start offset
`0` also satisfies `<= start_char`, so the start label lands on the final
special token. -/
theorem c4_counterexample :
    trainLabels [101, 55, 102, 7, 8, 102] 101 [none, some 0, none, some 1, some 1, none]
        [(0, 0), (0, 4), (0, 0), (0, 5), (6, 10), (0, 0)] 1 ⟨[7], [['a', 'b']]⟩ = some (5, 4) ∧
    ([none, some 0, none, some 1, some 1, none] : List (Option Nat)).findIdx?
        (fun x => x == some 1) = some 3 ∧
    (List.range ([101, 55, 102, 7, 8, 102] : List Nat).length).reverse.find?
        (fun k => ([none, some 0, none, some 1, some 1, none] : List (Option Nat)).getD k none
          == some 1) = some 4 ∧
    (([(0, 0), (0, 4), (0, 0), (0, 5), (6, 10), (0, 0)] : List (Nat × Nat)).getD 3 (0, 0)).1 ≤ 7 ∧
    9 ≤ (([(0, 0), (0, 4), (0, 0), (0, 5), (6, 10), (0, 0)] : List (Nat × Nat)).getD 4 (0, 0)).2 ∧
    specTightestPair [(0, 0), (0, 4), (0, 0), (0, 5), (6, 10), (0, 0)] 3 4 7 9 = (4, 4) ∧
    trainLabels [101, 55, 102, 7, 8, 102] 101 [none, some 0, none, some 1, some 1, none]
        [(0, 0), (0, 4), (0, 0), (0, 5), (6, 10), (0, 0)] 1 ⟨[7], [['a', 'b']]⟩ ≠
      some (specTightestPair [(0, 0), (0, 4), (0, 0), (0, 5), (6, 10), (0, 0)] 3 4 7 9) := by
  decide

/-- Witness for C4's amended statement at a three-context-token window whose
answer sits strictly inside the middle context token. -/
theorem c4_witness :
    (([(0, 0), (0, 4), (0, 0), (0, 5), (6, 10), (12, 15), (0, 0)] : List (Nat × Nat)).length =
      ([101, 55, 102, 7, 8, 9, 102] : List Nat).length) ∧
    (([none, some 0, none, some 1, some 1, some 1, none] : List (Option Nat)).findIdx?
        (fun x => x == some 1) = some 3) ∧
    ((List.range ([101, 55, 102, 7, 8, 9, 102] : List Nat).length).reverse.find?
        (fun k => ([none, some 0, none, some 1, some 1, some 1, none] :
          List (Option Nat)).getD k none == some 1) = some 5) ∧
    (3 ≤ 5) ∧
    (∀ i, i < ([(0, 0), (0, 4), (0, 0), (0, 5), (6, 10), (12, 15), (0, 0)] :
        List (Nat × Nat)).length →
      ∀ j, j < ([(0, 0), (0, 4), (0, 0), (0, 5), (6, 10), (12, 15), (0, 0)] :
        List (Nat × Nat)).length → 3 ≤ i → i ≤ j → j ≤ 5 →
      (([(0, 0), (0, 4), (0, 0), (0, 5), (6, 10), (12, 15), (0, 0)] :
        List (Nat × Nat)).getD i (0, 0)).1 ≤
        (([(0, 0), (0, 4), (0, 0), (0, 5), (6, 10), (12, 15), (0, 0)] :
          List (Nat × Nat)).getD j (0, 0)).1) ∧
    (∀ i, i < ([(0, 0), (0, 4), (0, 0), (0, 5), (6, 10), (12, 15), (0, 0)] :
        List (Nat × Nat)).length →
      ∀ j, j < ([(0, 0), (0, 4), (0, 0), (0, 5), (6, 10), (12, 15), (0, 0)] :
        List (Nat × Nat)).length → 3 ≤ i → i ≤ j → j ≤ 5 →
      (([(0, 0), (0, 4), (0, 0), (0, 5), (6, 10), (12, 15), (0, 0)] :
        List (Nat × Nat)).getD i (0, 0)).2 ≤
        (([(0, 0), (0, 4), (0, 0), (0, 5), (6, 10), (12, 15), (0, 0)] :
          List (Nat × Nat)).getD j (0, 0)).2) ∧
    (((⟨[7], [['a', 'b']]⟩ : Answers).answer_start = [] →
      trainLabels [101, 55, 102, 7, 8, 9, 102] 101
          [none, some 0, none, some 1, some 1, some 1, none]
          [(0, 0), (0, 4), (0, 0), (0, 5), (6, 10), (12, 15), (0, 0)] 1 ⟨[7], [['a', 'b']]⟩ =
        some (([101, 55, 102, 7, 8, 9, 102] : List Nat).findIdx (· == 101),
          ([101, 55, 102, 7, 8, 9, 102] : List Nat).findIdx (· == 101))) ∧
     ((⟨[7], [['a', 'b']]⟩ : Answers).answer_start ≠ [] →
      ¬((([(0, 0), (0, 4), (0, 0), (0, 5), (6, 10), (12, 15), (0, 0)] :
            List (Nat × Nat)).getD 3 (0, 0)).1 ≤
            (⟨[7], [['a', 'b']]⟩ : Answers).answer_start.getD 0 0 ∧
          (⟨[7], [['a', 'b']]⟩ : Answers).answer_start.getD 0 0 +
            ((⟨[7], [['a', 'b']]⟩ : Answers).text.getD 0 []).length ≤
            (([(0, 0), (0, 4), (0, 0), (0, 5), (6, 10), (12, 15), (0, 0)] :
              List (Nat × Nat)).getD 5 (0, 0)).2) →
      trainLabels [101, 55, 102, 7, 8, 9, 102] 101
          [none, some 0, none, some 1, some 1, some 1, none]
          [(0, 0), (0, 4), (0, 0), (0, 5), (6, 10), (12, 15), (0, 0)] 1 ⟨[7], [['a', 'b']]⟩ =
        some (([101, 55, 102, 7, 8, 9, 102] : List Nat).findIdx (· == 101),
          ([101, 55, 102, 7, 8, 9, 102] : List Nat).findIdx (· == 101))) ∧
     ((⟨[7], [['a', 'b']]⟩ : Answers).answer_start ≠ [] →
      (([(0, 0), (0, 4), (0, 0), (0, 5), (6, 10), (12, 15), (0, 0)] :
          List (Nat × Nat)).getD 3 (0, 0)).1 ≤
        (⟨[7], [['a', 'b']]⟩ : Answers).answer_start.getD 0 0 →
      (⟨[7], [['a', 'b']]⟩ : Answers).answer_start.getD 0 0 +
          ((⟨[7], [['a', 'b']]⟩ : Answers).text.getD 0 []).length ≤
        (([(0, 0), (0, 4), (0, 0), (0, 5), (6, 10), (12, 15), (0, 0)] :
          List (Nat × Nat)).getD 5 (0, 0)).2 →
      (⟨[7], [['a', 'b']]⟩ : Answers).answer_start.getD 0 0 <
        (([(0, 0), (0, 4), (0, 0), (0, 5), (6, 10), (12, 15), (0, 0)] :
          List (Nat × Nat)).getD 5 (0, 0)).1 →
      (([(0, 0), (0, 4), (0, 0), (0, 5), (6, 10), (12, 15), (0, 0)] :
          List (Nat × Nat)).getD 3 (0, 0)).2 <
        (⟨[7], [['a', 'b']]⟩ : Answers).answer_start.getD 0 0 +
          ((⟨[7], [['a', 'b']]⟩ : Answers).text.getD 0 []).length →
      ∃ s e, trainLabels [101, 55, 102, 7, 8, 9, 102] 101
          [none, some 0, none, some 1, some 1, some 1, none]
          [(0, 0), (0, 4), (0, 0), (0, 5), (6, 10), (12, 15), (0, 0)] 1 ⟨[7], [['a', 'b']]⟩ =
          some (s, e) ∧
        3 ≤ s ∧ s ≤ 5 ∧ 3 ≤ e ∧ e ≤ 5 ∧
        (([(0, 0), (0, 4), (0, 0), (0, 5), (6, 10), (12, 15), (0, 0)] :
          List (Nat × Nat)).getD s (0, 0)).1 ≤
          (⟨[7], [['a', 'b']]⟩ : Answers).answer_start.getD 0 0 ∧
        (⟨[7], [['a', 'b']]⟩ : Answers).answer_start.getD 0 0 +
            ((⟨[7], [['a', 'b']]⟩ : Answers).text.getD 0 []).length ≤
          (([(0, 0), (0, 4), (0, 0), (0, 5), (6, 10), (12, 15), (0, 0)] :
            List (Nat × Nat)).getD e (0, 0)).2 ∧
        (∀ i, 3 ≤ i → i ≤ 5 →
          (([(0, 0), (0, 4), (0, 0), (0, 5), (6, 10), (12, 15), (0, 0)] :
            List (Nat × Nat)).getD i (0, 0)).1 ≤
            (⟨[7], [['a', 'b']]⟩ : Answers).answer_start.getD 0 0 → i ≤ s) ∧
        (∀ i, 3 ≤ i → i ≤ 5 →
          (⟨[7], [['a', 'b']]⟩ : Answers).answer_start.getD 0 0 +
              ((⟨[7], [['a', 'b']]⟩ : Answers).text.getD 0 []).length ≤
            (([(0, 0), (0, 4), (0, 0), (0, 5), (6, 10), (12, 15), (0, 0)] :
              List (Nat × Nat)).getD i (0, 0)).2 → e ≤ i))) :=
  ⟨by decide, by decide, by decide, by decide, by decide, by decide,
   c4_train_labels [101, 55, 102, 7, 8, 9, 102] 101
     [none, some 0, none, some 1, some 1, some 1, none]
     [(0, 0), (0, 4), (0, 0), (0, 5), (6, 10), (12, 15), (0, 0)] 1 ⟨[7], [['a', 'b']]⟩ 3 5
     (by decide) (by decide) (by decide) (by decide) (by decide) (by decide)⟩
